import Mathlib

/-!
Shallow embedding of `src/main.cpp` of the esp32Blink firmware.

Serial output is modelled as a `List String` of complete output lines
(each `Serial.println`/`printf` sequence that ends in a newline contributes
one line; a `println` of a string containing `\n` contributes several lines).
The C `float` arithmetic of `printLittleFsUsage` is modelled twice: once
over exact `ℚ` (`usedPercent`, the right reading for properties stated
"within floating rounding"), and once with genuine IEEE-754 binary32
round-to-nearest-even after every operation (`usedPercentF32`, for
properties sensitive to the rounding itself).  `%.2f` formatting is
modelled by rounding to the nearest hundredth.

The filesystem driver (LittleFS) is external: a `fileSystem.open(path)`
result is modelled as `Option FsNode` — `none` when the handle converts to
false (path absent), `some (.file ..)` when it exists but is not a
directory, `some (.dir _ children)` when it is a directory whose
`openNextFile` stream enumerates `children` in list order.  Nested
`children` of a subdirectory entry are carried in the model so that the
single-level (non-recursive) nature of the listing is expressible.

The output device is modelled as a single `Bool` (`false` = OFF): in the
LED build variant this is the pin level (`initOutput` drives it LOW, and
`toggleOutput` writes the negation of the read-back level); in the
NeoPixel variant it is the `static bool isOn` flag (cleared pixel at
start, flipped each call).  Both variants flip the state unconditionally;
the per-toggle report line used below is the LED variant's
(`"LED is ON"`/`"LED is OFF"`); the NeoPixel variant differs only in the
text of that line.
-/

/-- A node of the external filesystem as the driver exposes it:
a file with a name and size, or a directory with a name and the
(ordered) entry stream its handle would enumerate. -/
inductive FsNode where
  | file (nm : String) (sizeBytes : Nat)
  | dir  (nm : String) (children : List FsNode)

/-- Guard condition `!rootDirectory || !rootDirectory.isDirectory()` of
`listFiles`: the open fails when the path does not exist (`none`)
or names a non-directory. -/
def openFailed : Option FsNode → Bool
  | none => true
  | some (FsNode.file _ _) => true
  | some (FsNode.dir _ _) => false

/-- The line the body of the `while` loop of `listFiles` prints for one
entry: `printf("%s%s", isDirectory ? "DIR : " : "FILE: ", name)` followed
by `printf("\tSIZE: %u\n", size)` for files, or a bare `println()` for
directories. -/
def entryLine : FsNode → String
  | FsNode.dir nm _ => "DIR : " ++ nm
  | FsNode.file nm sz => "FILE: " ++ nm ++ "\tSIZE: " ++ toString sz

/-- The `while (currentEntry)` loop of `listFiles`: one pass over the
`openNextFile` stream, one line per entry. -/
def listEntries : List FsNode → List String
  | [] => []
  | e :: rest => entryLine e :: listEntries rest

/-- Embedding of `listFiles(fileSystem, directoryPath)` (src/main.cpp:22-59),
as the list of lines it prints: a leading blank line (`Serial.println()`),
then either the open-failure error and an early return, or the
"no files found" notice when the first `openNextFile` yields nothing,
then the entry lines. -/
def listFiles (rootDirectory : Option FsNode) : List String :=
  match rootDirectory with
  | some (FsNode.dir _ children) =>
      "" :: ((if children.isEmpty then ["Info: No files found."] else [])
              ++ listEntries children)
  | _ => ["", "Error: Could not open root directory."]

/-- Value `usedPercent` as computed in `printLittleFsUsage` (main.cpp:67-71):
`0.0` when `totalBytes` is zero, else `usedBytes * 100.0 / totalBytes`. -/
def usedPercent (totalBytes usedBytes : Nat) : ℚ :=
  if totalBytes > 0 then (usedBytes : ℚ) * 100 / (totalBytes : ℚ) else 0

/-- Rounding of a rational to the nearest integer with ties to even
(the IEEE-754 default). -/
def rne (s : ℚ) : Int :=
  if s - ⌊s⌋ < 1 / 2 then ⌊s⌋
  else if 1 / 2 < s - ⌊s⌋ then ⌊s⌋ + 1
  else if ⌊s⌋ % 2 = 0 then ⌊s⌋ else ⌊s⌋ + 1

/-- Rounding of a nonnegative rational to the nearest IEEE-754 binary32
value (24-bit significand, round to nearest, ties to even), as an exact
rational: scale into the binade `[2^23, 2^24)`, round the scaled value to
an integer, scale back.  The exponent is unbounded here, so overflow and
subnormals are not modelled; all values arising from the program's
`size_t` inputs (below `2^32`) stay well inside binary32's normal range,
where this agrees with the hardware. -/
def roundF32 (x : ℚ) : ℚ :=
  if 0 < x then
    (rne (x / 2 ^ (Int.log 2 x - 23)) : ℚ) * 2 ^ (Int.log 2 x - 23)
  else 0

/-- Value of `(float)usedBytes * 100.0F / (float)totalBytes` from
`printLittleFsUsage` (main.cpp:70) evaluated in binary32 arithmetic:
each conversion and each arithmetic result is rounded to binary32
(`100.0F` is exact), with the source's division-by-zero guard. -/
def usedPercentF32 (totalBytes usedBytes : Nat) : ℚ :=
  if totalBytes > 0 then
    roundF32 (roundF32 (roundF32 (usedBytes : ℚ) * 100) / roundF32 (totalBytes : ℚ))
  else 0

/-- Printf `%.2f` formatting on an exact rational: round to the nearest
hundredth and print with two digits after the point (the values the
claims evaluate are nonnegative and exact, so the half-way convention
is immaterial). -/
def formatHundredths (c : Int) : String :=
  toString (c / 100) ++ "."
    ++ (if (c % 100).toNat < 10 then "0" else "")
    ++ toString (c % 100).toNat

def format2 (q : ℚ) : String :=
  formatHundredths ⌊q * 100 + 1 / 2⌋

/-- Embedding of `printLittleFsUsage()` (src/main.cpp:61-77), as the lines it
prints, with the driver's `totalBytes()`/`usedBytes()` readings passed
as arguments. -/
def printLittleFsUsage (totalBytes usedBytes : Nat) : List String :=
  ["",
   "LittleFS total bytes: " ++ toString totalBytes,
   "LittleFS used bytes : " ++ toString usedBytes,
   "LittleFS usage      : " ++ format2 (usedPercent totalBytes usedBytes) ++ "%"]

/-- Embedding of `initLittleFs()` (src/main.cpp:127-142), as the lines it prints:
`mountOk` is the result of `LittleFS.begin(true)`, `totalBytes`/`usedBytes`
the usage readings and `root` the result of opening `"/"` after a
successful mount.  On mount failure it reports the error and returns
without the usage snapshot or the listing. -/
def initLittleFs (mountOk : Bool) (totalBytes usedBytes : Nat)
    (root : Option FsNode) : List String :=
  if !mountOk then
    ["", "", "Initializing LittleFS...",
     "Error: LittleFS initialization failed."]
  else
    ["", "", "Initializing LittleFS...",
     "Info: LittleFS initialization OK."]
      ++ printLittleFsUsage totalBytes usedBytes
      ++ listFiles root
      ++ ["", ""]

/-- State `initOutput()` (main.cpp:79-95) leaves the output in: OFF, the LED pin
driven LOW, the pixel cleared. -/
def initOutputState : Bool := false

/-- Embedding of `toggleOutput()` (main.cpp:97-125) on the output state: both build
variants flip it unconditionally. -/
def toggleOutput (isOn : Bool) : Bool := !isOn

/-- The per-toggle report line, new state first computed:
`"LED is %s"` with `"ON"`/`"OFF"` (LED variant text). -/
def toggleLine (newState : Bool) : String :=
  "LED is " ++ (if newState then "ON" else "OFF")

/-- Output state after `n` invocations of `toggleOutput` starting from
the state `initOutput` establishes. -/
def outputAfter : Nat → Bool
  | 0 => initOutputState
  | n + 1 => toggleOutput (outputAfter n)

/-- The mutable state of `loop()` (main.cpp:156-170): the `static int
count` cycle counter and the output state the toggler flips. -/
structure LoopState where
  count : Int
  isOn : Bool
deriving DecidableEq, Repr

/-- State at entry of the first `loop()` iteration: `count` is
initialized to 5 and `setup()`'s `initOutput()` left the output OFF. -/
def initialLoopState : LoopState := { count := 5, isOn := false }

/-- One iteration of `loop()`: toggle the output, then, if `count > 10`,
run `initLittleFs` (whose mount outcome is `mountOk` and filesystem
readings are `totalBytes`, `usedBytes`, `root`), reset `count` to 0 and
return (skipping the increment); otherwise increment `count`.  Returns
the successor state and the lines printed during the iteration. -/
def loopIter (mountOk : Bool) (totalBytes usedBytes : Nat)
    (root : Option FsNode) (s : LoopState) : LoopState × List String :=
  let isOn := toggleOutput s.isOn
  if s.count > 10 then
    ({ count := 0, isOn := isOn },
     [toggleLine isOn] ++ initLittleFs mountOk totalBytes usedBytes root)
  else
    ({ count := s.count + 1, isOn := isOn }, [toggleLine isOn])

/-- State after `n` iterations of `loop()`, with `env i` the mount
outcome the driver would report at iteration `i` (irrelevant to the
state, as `initLittleFs` returns `void` and swallows its errors, but
carried to make that fact provable rather than built-in). -/
def loopRun (env : Nat → Bool) (totalBytes usedBytes : Nat)
    (root : Option FsNode) : Nat → LoopState
  | 0 => initialLoopState
  | n + 1 => (loopIter (env n) totalBytes usedBytes root
                (loopRun env totalBytes usedBytes root n)).1

/-- The lines iteration `n` (0-indexed; it performs toggle call `n + 1`)
prints. -/
def iterLines (env : Nat → Bool) (totalBytes usedBytes : Nat)
    (root : Option FsNode) (n : Nat) : List String :=
  (loopIter (env n) totalBytes usedBytes root
    (loopRun env totalBytes usedBytes root n)).2

/-- Strip the children of a directory node, keeping its name. -/
def stripChildren : FsNode → FsNode
  | FsNode.file nm sz => FsNode.file nm sz
  | FsNode.dir nm _ => FsNode.dir nm []

/-! ## Helper lemmas -/

/-- Closed form for the cycle counter: it climbs 5,6,…,11 over the first
seven iterations, then cycles 0,…,11 with period 12. -/
theorem loopRun_count (env : Nat → Bool) (t u : Nat) (root : Option FsNode) :
    ∀ n, (loopRun env t u root n).count
      = if n < 7 then (n : Int) + 5 else ((n : Int) - 7) % 12 := by
  intro n
  induction n with
  | zero => simp [loopRun, initialLoopState]
  | succ n ih =>
    rw [loopRun, loopIter]
    split
    · rename_i h
      rw [ih] at h
      simp only
      split at h <;> omega
    · rename_i h
      rw [ih] at h
      simp only
      rw [ih]
      split <;> split <;> omega

/-- The output state after `n` loop iterations is ON exactly for odd `n`,
whatever mount outcomes the driver reports. -/
theorem loopRun_isOn (env : Nat → Bool) (t u : Nat) (root : Option FsNode) :
    ∀ n, (loopRun env t u root n).isOn = decide (n % 2 = 1) := by
  intro n
  induction n with
  | zero => simp [loopRun, initialLoopState]
  | succ n ih =>
    rw [loopRun, loopIter]
    split <;> simp only [toggleOutput, ih] <;>
      rcases Nat.mod_two_eq_zero_or_one n with h | h
    · have h2 : (n + 1) % 2 = 1 := by omega
      simp [h, h2]
    · have h2 : (n + 1) % 2 = 0 := by omega
      simp [h, h2]
    · have h2 : (n + 1) % 2 = 1 := by omega
      simp [h, h2]
    · have h2 : (n + 1) % 2 = 0 := by omega
      simp [h, h2]

/-- The boot banner line is printed by `initLittleFs` on both mount
outcomes. -/
theorem initLittleFs_mem_banner (mountOk : Bool) (t u : Nat)
    (root : Option FsNode) :
    "Initializing LittleFS..." ∈ initLittleFs mountOk t u root := by
  rw [initLittleFs]
  split
  · decide
  · exact List.mem_append_left _
      (List.mem_append_left _ (List.mem_append_left _ (by decide)))

/-- The per-toggle report line is never the boot banner line. -/
theorem toggleLine_ne_banner (b : Bool) :
    toggleLine b ≠ "Initializing LittleFS..." := by
  cases b <;> decide

/-- Helper for C9: the entry loop is exactly a map of `entryLine` over the
driver's stream. -/
theorem listEntries_map (es : List FsNode) : listEntries es = es.map entryLine := by
  induction es with
  | nil => rfl
  | cons e rest ih => simp [listEntries, ih]

/-- Helper for C9: the printed line of an entry ignores a subdirectory's
contents. -/
theorem entryLine_stripChildren (e : FsNode) :
    entryLine (stripChildren e) = entryLine e := by
  cases e <;> rfl

/-- Helper for C3: the toggler state after `n` invocations is ON exactly
for odd `n`. -/
theorem outputAfter_parity (n : Nat) : outputAfter n = decide (n % 2 = 1) := by
  induction n with
  | zero => simp [outputAfter, initOutputState]
  | succ n ih =>
    rw [outputAfter, toggleOutput, ih]
    rcases Nat.mod_two_eq_zero_or_one n with h | h
    · have h2 : (n + 1) % 2 = 1 := by omega
      simp [h, h2]
    · have h2 : (n + 1) % 2 = 0 := by omega
      simp [h, h2]

/-- Helper for C8: an integer below the rounded value. -/
theorem floor_le_rne (s : ℚ) : ⌊s⌋ ≤ rne s := by
  rw [rne]
  split
  · omega
  split
  · omega
  split <;> omega

/-- Helper for C8: the rounded value never exceeds the floor plus one. -/
theorem rne_le_floor_add_one (s : ℚ) : rne s ≤ ⌊s⌋ + 1 := by
  rw [rne]
  split
  · omega
  split
  · omega
  split <;> omega

/-- Helper for C8: round-to-nearest moves a value up by at most one
half. -/
theorem rne_le (s : ℚ) : (rne s : ℚ) ≤ s + 1 / 2 := by
  have hfl := Int.floor_le s
  rw [rne]
  split
  · linarith
  split
  · rename_i h1 h2
    push_cast
    linarith
  split <;>
  · rename_i h1 h2 h3
    push_cast
    linarith

/-- Helper for C8: rounding to nearest (ties to even) is monotone. -/
theorem rne_mono {s t : ℚ} (h : s ≤ t) : rne s ≤ rne t := by
  have hf : ⌊s⌋ ≤ ⌊t⌋ := Int.floor_le_floor h
  rcases lt_or_eq_of_le hf with hlt | heq
  · have h1 := rne_le_floor_add_one s
    have h2 := floor_le_rne t
    omega
  · rw [rne, rne, ← heq]
    have hs : s - ⌊s⌋ ≤ t - ⌊s⌋ := by linarith
    split_ifs <;> first | omega | (exfalso; linarith)

/-- Helper for C8: the binade's lower bound, `2 ^ log2 x ≤ x`. -/
theorem log2_le_self (x : ℚ) (hx : 0 < x) : (2:ℚ) ^ Int.log 2 x ≤ x := by
  exact_mod_cast Int.zpow_log_le_self (b := 2) one_lt_two hx

/-- Helper for C8: the binade's upper bound, `x < 2 ^ (log2 x + 1)`. -/
theorem lt_log2_succ (x : ℚ) : x < (2:ℚ) ^ (Int.log 2 x + 1) := by
  exact_mod_cast Int.lt_zpow_succ_log_self (b := 2) one_lt_two x


/-- Helper for C8: splitting a power of two over a sum of exponents. -/
theorem two_zpow_add (m n : Int) : (2:ℚ) ^ (m + n) = 2 ^ m * 2 ^ n :=
  zpow_add₀ (by norm_num) m n

/-- Helper for C8: the scaled significand is at least `2 ^ 23`. -/
theorem mantissa_lb (x : ℚ) (hx : 0 < x) :
    (8388608:ℚ) ≤ x / 2 ^ (Int.log 2 x - 23) := by
  rw [le_div_iff₀ (by positivity)]
  have h : (8388608:ℚ) * 2 ^ (Int.log 2 x - 23) = 2 ^ Int.log 2 x := by
    rw [show (8388608:ℚ) = 2 ^ (23:Int) by norm_num, ← two_zpow_add]
    congr 1
    ring
  rw [h]
  exact log2_le_self x hx

/-- Helper for C8: the scaled significand is below `2 ^ 24`. -/
theorem mantissa_ub (x : ℚ) :
    x / 2 ^ (Int.log 2 x - 23) < 16777216 := by
  rw [div_lt_iff₀ (by positivity)]
  have h : (16777216:ℚ) * 2 ^ (Int.log 2 x - 23) = 2 ^ (Int.log 2 x + 1) := by
    rw [show (16777216:ℚ) = 2 ^ (24:Int) by norm_num, ← two_zpow_add]
    congr 1
    ring
  rw [h]
  exact lt_log2_succ x

/-- Helper for C8: evaluation rule for `roundF32` once the binade of the
argument is known. -/
theorem roundF32_eval (x : ℚ) (e : Int) (hx : 0 < x)
    (h1 : (2:ℚ) ^ e ≤ x) (h2 : x < (2:ℚ) ^ (e + 1)) :
    roundF32 x = (rne (x / 2 ^ (e - 23)) : ℚ) * 2 ^ (e - 23) := by
  have he : Int.log 2 x = e := by
    have ha : e ≤ Int.log 2 x := by
      rw [← Int.zpow_le_iff_le_log one_lt_two hx]
      exact_mod_cast h1
    have hb : Int.log 2 x < e + 1 := by
      rw [← Int.lt_zpow_iff_log_lt one_lt_two hx]
      exact_mod_cast h2
    omega
  rw [roundF32, if_pos hx, he]

/-- Helper for C8: nonpositive inputs round to zero. -/
theorem roundF32_nonpos (x : ℚ) (hx : x ≤ 0) : roundF32 x = 0 := by
  rw [roundF32, if_neg (not_lt.mpr hx)]

/-- Helper for C8: positive inputs round to positive values. -/
theorem roundF32_pos (x : ℚ) (hx : 0 < x) : 0 < roundF32 x := by
  rw [roundF32, if_pos hx]
  have hm := mantissa_lb x hx
  have hfl : (1:Int) ≤ ⌊x / 2 ^ (Int.log 2 x - 23)⌋ := by
    rw [Int.le_floor]
    push_cast
    linarith
  have hr : (1:Int) ≤ rne (x / 2 ^ (Int.log 2 x - 23)) :=
    le_trans hfl (floor_le_rne _)
  have h1 : (1:ℚ) ≤ (rne (x / 2 ^ (Int.log 2 x - 23)) : ℚ) := by exact_mod_cast hr
  have hz : (0:ℚ) < 2 ^ (Int.log 2 x - 23) := by positivity
  nlinarith

/-- Helper for C8: `roundF32` never produces a negative value. -/
theorem roundF32_nonneg (x : ℚ) : 0 ≤ roundF32 x := by
  rcases le_or_lt x 0 with h | h
  · rw [roundF32_nonpos x h]
  · exact (roundF32_pos x h).le

/-- Helper for C8: rounding adds at most half an ulp,
`2 ^ (log2 x - 24)`. -/
theorem roundF32_le (x : ℚ) (hx : 0 < x) :
    roundF32 x ≤ x + 2 ^ (Int.log 2 x - 24) := by
  rw [roundF32, if_pos hx]
  have hz : (0:ℚ) < 2 ^ (Int.log 2 x - 23) := by positivity
  have h1 := rne_le (x / 2 ^ (Int.log 2 x - 23))
  have h2 : (rne (x / 2 ^ (Int.log 2 x - 23)) : ℚ) * 2 ^ (Int.log 2 x - 23)
      ≤ (x / 2 ^ (Int.log 2 x - 23) + 1 / 2) * 2 ^ (Int.log 2 x - 23) :=
    mul_le_mul_of_nonneg_right h1 hz.le
  have h3 : (x / 2 ^ (Int.log 2 x - 23) + 1 / 2) * 2 ^ (Int.log 2 x - 23)
      = x + 2 ^ (Int.log 2 x - 24) := by
    rw [add_mul, div_mul_cancel₀ _ (ne_of_gt hz)]
    congr 1
    rw [show Int.log 2 x - 24 = (-1) + (Int.log 2 x - 23) by ring, two_zpow_add]
    norm_num
  linarith

/-- Helper for C8: relative error bound, one part in `2 ^ 24`. -/
theorem roundF32_le_rel (x : ℚ) (hx : 0 < x) :
    roundF32 x ≤ x * (1 + 2 ^ (-24 : Int)) := by
  have h1 := roundF32_le x hx
  have h2 : (2:ℚ) ^ (Int.log 2 x - 24) ≤ x * 2 ^ (-24 : Int) := by
    rw [show Int.log 2 x - 24 = Int.log 2 x + (-24) by ring, two_zpow_add]
    have h3 := log2_le_self x hx
    have hz : (0:ℚ) < 2 ^ (-24 : Int) := by positivity
    nlinarith
  nlinarith

/-- Helper for C8: a rounded value never leaves its binade upward. -/
theorem roundF32_le_pow (x : ℚ) (hx : 0 < x) :
    roundF32 x ≤ 2 ^ (Int.log 2 x + 1) := by
  rw [roundF32, if_pos hx]
  have hub := mantissa_ub x
  have hfl : ⌊x / 2 ^ (Int.log 2 x - 23)⌋ < 16777216 := by
    rw [Int.floor_lt]
    push_cast
    linarith
  have hr : rne (x / 2 ^ (Int.log 2 x - 23)) ≤ 16777216 := by
    have := rne_le_floor_add_one (x / 2 ^ (Int.log 2 x - 23))
    omega
  have hrq : (rne (x / 2 ^ (Int.log 2 x - 23)) : ℚ) ≤ 16777216 := by exact_mod_cast hr
  have hz : (0:ℚ) < 2 ^ (Int.log 2 x - 23) := by positivity
  have h : (16777216:ℚ) * 2 ^ (Int.log 2 x - 23) = 2 ^ (Int.log 2 x + 1) := by
    rw [show (16777216:ℚ) = 2 ^ (24:Int) by norm_num, ← two_zpow_add]
    congr 1
    ring
  nlinarith

/-- Helper for C8: a rounded value never leaves its binade downward. -/
theorem pow_le_roundF32 (x : ℚ) (hx : 0 < x) :
    (2:ℚ) ^ Int.log 2 x ≤ roundF32 x := by
  rw [roundF32, if_pos hx]
  have hlb := mantissa_lb x hx
  have hfl : (8388608:Int) ≤ ⌊x / 2 ^ (Int.log 2 x - 23)⌋ := by
    rw [Int.le_floor]
    push_cast
    linarith
  have hr : (8388608:Int) ≤ rne (x / 2 ^ (Int.log 2 x - 23)) :=
    le_trans hfl (floor_le_rne _)
  have hrq : (8388608:ℚ) ≤ (rne (x / 2 ^ (Int.log 2 x - 23)) : ℚ) := by exact_mod_cast hr
  have hz : (0:ℚ) < 2 ^ (Int.log 2 x - 23) := by positivity
  have h : (8388608:ℚ) * 2 ^ (Int.log 2 x - 23) = 2 ^ Int.log 2 x := by
    rw [show (8388608:ℚ) = 2 ^ (23:Int) by norm_num, ← two_zpow_add]
    congr 1
    ring
  nlinarith

/-- Helper for C8: rounding to binary32 is monotone on positive
inputs. -/
theorem roundF32_mono {x y : ℚ} (hx : 0 < x) (h : x ≤ y) :
    roundF32 x ≤ roundF32 y := by
  have hy : 0 < y := lt_of_lt_of_le hx h
  have hee : Int.log 2 x ≤ Int.log 2 y := Int.log_mono_right hx h
  rcases lt_or_eq_of_le hee with hlt | heq
  · have h1 := roundF32_le_pow x hx
    have h2 := pow_le_roundF32 y hy
    have h3 : (2:ℚ) ^ (Int.log 2 x + 1) ≤ 2 ^ Int.log 2 y :=
      zpow_le_zpow_right₀ one_le_two (by omega)
    linarith
  · rw [roundF32, if_pos hx, roundF32, if_pos hy, ← heq]
    have hz : (0:ℚ) < 2 ^ (Int.log 2 x - 23) := by positivity
    have hdiv : x / 2 ^ (Int.log 2 x - 23) ≤ y / 2 ^ (Int.log 2 x - 23) := by
      gcongr
    have hrne : rne (x / 2 ^ (Int.log 2 x - 23)) ≤ rne (y / 2 ^ (Int.log 2 x - 23)) :=
      rne_mono hdiv
    have hrq : (rne (x / 2 ^ (Int.log 2 x - 23)) : ℚ)
        ≤ (rne (y / 2 ^ (Int.log 2 x - 23)) : ℚ) := by exact_mod_cast hrne
    exact mul_le_mul_of_nonneg_right hrq hz.le

/-- Helper for C8: `(float)10737419` is exact (below `2 ^ 24`). -/
theorem roundF32_scenario_cast : roundF32 ((10737419:ℚ)) = 10737419 := by
  rw [roundF32_eval _ 23 (by norm_num) (by norm_num) (by norm_num)]
  norm_num [rne]

/-- Helper for C8: the binary32 product `10737419 * 100` rounds up,
the ulp at `2 ^ 30` being 128. -/
theorem roundF32_scenario_mul : roundF32 ((1073741900:ℚ)) = 1073741952 := by
  rw [roundF32_eval _ 30 (by norm_num) (by norm_num) (by norm_num)]
  norm_num [rne]

/-- Helper for C8: the binary32 quotient rounds up to one ulp above 100
(the scaled fraction 6815744/10737419 exceeds one half). -/
theorem roundF32_scenario_div :
    roundF32 ((1073741952:ℚ) / 10737419) = 100 + 1 / 131072 := by
  rw [roundF32_eval _ 6 (by norm_num) (by norm_num) (by norm_num)]
  norm_num [rne]

/-- Helper for C8: the full binary32 evaluation at
`usedBytes = totalBytes = 10737419`. -/
theorem usedPercentF32_scenario :
    usedPercentF32 10737419 10737419 = 100 + 1 / 131072 := by
  rw [usedPercentF32, if_pos (by norm_num)]
  have hc : ((10737419:ℕ):ℚ) = (10737419:ℚ) := by norm_num
  rw [hc, roundF32_scenario_cast]
  rw [show ((10737419:ℚ) * 100) = 1073741900 by norm_num,
    roundF32_scenario_mul, roundF32_scenario_div]

/-! ## Claim theorems -/

/-- C1 (counterexample): the claim places the first loop re-mount at the
6th toggle call, but iteration 5 (which performs the 6th toggle) does not
run `initLittleFs`; iteration 6 (the 7th toggle) does. -/
theorem remount_not_at_sixth_toggle :
    ¬ ("Initializing LittleFS..." ∈ iterLines (fun _ => false) 0 0 none 5)
    ∧ ("Initializing LittleFS..." ∈ iterLines (fun _ => false) 0 0 none 6) := by
  decide

/-- C1 (amended): iteration `n` (0-indexed, performing toggle call
`n + 1`) runs `initLittleFs` exactly when `n + 1 ≡ 7 [MOD 12]`: the first
re-mount happens at the 7th toggle call and each subsequent one 12 toggle
calls after the previous, whatever the driver readings and mount
outcomes. -/
theorem remount_cadence (env : Nat → Bool) (t u : Nat) (root : Option FsNode) :
    ∀ n, ("Initializing LittleFS..." ∈ iterLines env t u root n)
      ↔ (n + 1) % 12 = 7 := by
  intro n
  have hc := loopRun_count env t u root n
  rw [iterLines, loopIter]
  split
  · rename_i h
    apply iff_of_true
    · exact List.mem_append_right _ (initLittleFs_mem_banner _ _ _ _)
    · rw [hc] at h
      split at h <;> omega
  · rename_i h
    apply iff_of_false
    · intro hmem
      exact toggleLine_ne_banner _ (List.mem_singleton.mp hmem).symm
    · rw [hc] at h
      split at h <;> omega

/-- C1 (witness): instantiation of `remount_cadence` at iteration 6. -/
theorem remount_cadence_witness :
    "Initializing LittleFS..." ∈ iterLines (fun _ => false) 0 0 none 6 :=
  (remount_cadence (fun _ => false) 0 0 none 6).mpr (by decide)

/-- C2: for positive `totalBytes` the computed percentage is exactly
`usedBytes * 100 / totalBytes`, it is 0 when `totalBytes` is 0, and the
scenario `totalBytes = 1000000`, `usedBytes = 250000` yields 25, printed
as `25.00`. -/
theorem usage_percent_formula :
    (∀ t u : Nat, 0 < t → usedPercent t u = (u : ℚ) * 100 / (t : ℚ))
    ∧ (∀ u : Nat, usedPercent 0 u = 0)
    ∧ usedPercent 1000000 250000 = 25
    ∧ printLittleFsUsage 1000000 250000
        = ["", "LittleFS total bytes: 1000000",
           "LittleFS used bytes : 250000",
           "LittleFS usage      : 25.00%"] := by
  have h25 : usedPercent 1000000 250000 = 25 := by norm_num [usedPercent]
  refine ⟨?_, ?_, h25, ?_⟩
  · intro t u ht
    rw [usedPercent, if_pos ht]
  · intro u
    simp [usedPercent]
  · have hfmt : format2 25 = "25.00" := by
      have h : (⌊(25 : ℚ) * 100 + 1 / 2⌋ : Int) = 2500 := by norm_num
      rw [format2, h]
      decide
    simp only [printLittleFsUsage, h25, hfmt]
    decide

/-- C2 (witness): instantiation of `usage_percent_formula` at
`totalBytes = 4`, `usedBytes = 1`. -/
theorem usage_percent_formula_witness :
    usedPercent 4 1 = (1 : ℚ) * 100 / (4 : ℚ) :=
  usage_percent_formula.1 4 1 (by norm_num)

/-- C3: starting from the OFF state `initOutput` establishes, after `N`
invocations of `toggleOutput` the state is OFF exactly when `N` is even
and ON exactly when `N` is odd. -/
theorem toggler_state_parity :
    ∀ n, (outputAfter n = false ↔ n % 2 = 0)
      ∧ (outputAfter n = true ↔ n % 2 = 1) := by
  intro n
  rw [outputAfter_parity n]
  rcases Nat.mod_two_eq_zero_or_one n with h | h <;> simp [h]

/-- C3 (witness): instantiation of `toggler_state_parity` at `N = 3`. -/
theorem toggler_state_parity_witness : outputAfter 3 = true :=
  (toggler_state_parity 3).2.mpr (by decide)

/-- C4: an empty but existing directory lists to zero entries, the
"no files found" notice exactly once, and no error line. -/
theorem empty_dir_listing (nm : String) :
    listFiles (some (FsNode.dir nm []))
      = ["", "Info: No files found."]
    ∧ (listFiles (some (FsNode.dir nm []))).count "Info: No files found." = 1
    ∧ (listFiles (some (FsNode.dir nm []))).count
        "Error: Could not open root directory." = 0 := by
  have h : listFiles (some (FsNode.dir nm []))
      = ["", "Info: No files found."] := rfl
  refine ⟨h, ?_, ?_⟩ <;> rw [h] <;> decide

/-- C5: the open guard of `listFiles` fails exactly for an absent path or
a non-directory, and on failure the output is just the error report (no
entries, no exception — the function returns normally). -/
theorem open_error_semantics :
    (∀ h : Option FsNode, openFailed h = true ↔
        (h = none ∨ ∃ nm sz, h = some (FsNode.file nm sz)))
    ∧ (∀ h : Option FsNode, openFailed h = true →
        listFiles h = ["", "Error: Could not open root directory."]) := by
  constructor
  · intro h
    cases h with
    | none => simp [openFailed]
    | some node =>
      cases node with
      | file nm sz =>
        exact iff_of_true rfl (Or.inr ⟨nm, sz, rfl⟩)
      | dir nm children => simp [openFailed]
  · intro h hf
    cases h with
    | none => rfl
    | some node =>
      cases node with
      | file nm sz => rfl
      | dir nm children => simp [openFailed] at hf

/-- C5 (witness): instantiation of `open_error_semantics` at an absent
path. -/
theorem open_error_semantics_witness :
    listFiles none = ["", "Error: Could not open root directory."] :=
  open_error_semantics.2 none rfl

/-- C6: a mount failure is non-fatal — `initLittleFs` reports exactly the
banner and the mount-failure message (so no usage snapshot and no
listing), and the loop's output toggling keeps its normal every-iteration
schedule for all `n`, whatever mount outcomes occur. -/
theorem mount_failure_nonfatal :
    (∀ (t u : Nat) (root : Option FsNode),
        initLittleFs false t u root
          = ["", "", "Initializing LittleFS...",
             "Error: LittleFS initialization failed."])
    ∧ (∀ (t u : Nat) (root : Option FsNode),
        "Error: LittleFS initialization failed." ∈ initLittleFs false t u root)
    ∧ (∀ (env : Nat → Bool) (t u : Nat) (root : Option FsNode) (n : Nat),
        (loopRun env t u root n).isOn = decide (n % 2 = 1)) := by
  refine ⟨fun t u root => rfl, ?_, fun env t u root n => loopRun_isOn env t u root n⟩
  intro t u root
  have h : initLittleFs false t u root
      = ["", "", "Initializing LittleFS...",
         "Error: LittleFS initialization failed."] := rfl
  rw [h]
  decide

/-- C7 (counterexample): on the scenario directory the entry lines are
not the claimed literals `FILE: data.bin SIZE: 42` and `DIR: logs`. -/
theorem listing_format_counterexample :
    ¬ (listEntries [FsNode.file "data.bin" 42, FsNode.dir "logs" []]
        = ["FILE: data.bin SIZE: 42", "DIR: logs"]) := by
  decide

/-- C7 (amended): the scenario directory lists to exactly two entry
lines, in driver order, formatted with a tab before `SIZE:` and a space
before the colon of `DIR`. -/
theorem listing_two_entries :
    listFiles (some (FsNode.dir "/"
        [FsNode.file "data.bin" 42, FsNode.dir "logs" []]))
      = ["", "FILE: data.bin\tSIZE: 42", "DIR : logs"]
    ∧ listEntries [FsNode.file "data.bin" 42, FsNode.dir "logs" []]
      = ["FILE: data.bin\tSIZE: 42", "DIR : logs"] := by
  decide

/-- C8 (counterexample): the claimed `[0, 100]` bound fails on the
program's binary32 arithmetic.  At `usedBytes = totalBytes = 10737419`
(which satisfies `usedBytes ≤ totalBytes`) the computed percentage is
`100 + 2 ^ (-17)` — the multiply rounds `1073741900` up to `1073741952`
and the divide then rounds up to one ulp above 100. -/
theorem usage_percent_above_hundred :
    10737419 ≤ 10737419 ∧ 100 < usedPercentF32 10737419 10737419 :=
  ⟨le_rfl, by rw [usedPercentF32_scenario]; norm_num⟩

/-- C8 (amended): under `usedBytes ≤ totalBytes`, with `totalBytes` in
the 32-bit `size_t` range of the target, the binary32 percentage lies in
`[0, 100 + 2 ^ (-17)]` — nonnegative, and above 100 by at most one unit
in the last place at 100, a bound the counterexample input attains.  The
`totalBytes = 0` guard case is included. -/
theorem usage_percent_bounds_f32 (t u : Nat) (hut : u ≤ t) (_ht32 : t < 2 ^ 32) :
    0 ≤ usedPercentF32 t u ∧ usedPercentF32 t u ≤ 100 + 1 / 131072 := by
  rw [usedPercentF32]
  split
  case isFalse => norm_num
  case isTrue ht =>
    rcases Nat.eq_zero_or_pos u with hu0 | hu
    · subst hu0
      rw [show ((0:ℕ):ℚ) = 0 by norm_num, roundF32_nonpos 0 le_rfl]
      rw [show ((0:ℚ) * 100) = 0 by norm_num, roundF32_nonpos 0 le_rfl]
      rw [zero_div, roundF32_nonpos 0 le_rfl]
      norm_num
    · have huq : (0:ℚ) < (u:ℚ) := by exact_mod_cast hu
      have htq : (0:ℚ) < (t:ℚ) := by exact_mod_cast ht
      have hutq : (u:ℚ) ≤ (t:ℚ) := by exact_mod_cast hut
      have hfupos : 0 < roundF32 (u:ℚ) := roundF32_pos _ huq
      have hftpos : 0 < roundF32 (t:ℚ) := roundF32_pos _ htq
      have hmon : roundF32 (u:ℚ) ≤ roundF32 (t:ℚ) := roundF32_mono huq hutq
      have hm100 : (0:ℚ) < roundF32 (u:ℚ) * 100 := by positivity
      have hmpos : 0 < roundF32 (roundF32 (u:ℚ) * 100) := roundF32_pos _ hm100
      have hmle : roundF32 (roundF32 (u:ℚ) * 100)
          ≤ roundF32 (u:ℚ) * 100 * (1 + 2 ^ (-24 : Int)) := roundF32_le_rel _ hm100
      set m := roundF32 (roundF32 (u:ℚ) * 100) with hm
      set ft := roundF32 (t:ℚ) with hft
      have hqpos : 0 < m / ft := div_pos hmpos hftpos
      have heps : ((2:ℚ) ^ (-24 : Int)) = 1 / 16777216 := by norm_num
      have hqle : m / ft ≤ 100 + 25 / 4194304 := by
        rw [div_le_iff₀ hftpos]
        have step : m ≤ ft * 100 * (1 + 2 ^ (-24 : Int)) := by
          refine le_trans hmle ?_
          have hc : (0:ℚ) ≤ 100 * (1 + 2 ^ (-24 : Int)) := by positivity
          nlinarith
        rw [heps] at step
        nlinarith
      constructor
      · exact roundF32_nonneg _
      · rcases le_or_lt (m / ft) 64 with h64 | h64
        · have h1 := roundF32_le_rel (m / ft) hqpos
          have h2 : m / ft * (1 + 2 ^ (-24 : Int)) ≤ 64 * (1 + 2 ^ (-24 : Int)) := by
            have hc : (0:ℚ) ≤ 1 + 2 ^ (-24 : Int) := by positivity
            nlinarith
          rw [heps] at h2
          linarith [h1, h2]
        · have he64 : (2:ℚ) ^ (6:Int) ≤ m / ft := by
            rw [show ((2:ℚ) ^ (6:Int)) = 64 by norm_num]
            exact h64.le
          have he128 : m / ft < (2:ℚ) ^ ((6:Int) + 1) := by
            rw [show ((2:ℚ) ^ ((6:Int) + 1)) = 128 by norm_num]
            linarith
          rw [roundF32_eval _ 6 hqpos he64 he128]
          have hsc : m / ft / 2 ^ ((6:Int) - 23) = m / ft * 131072 := by
            rw [show ((6:Int) - 23) = -17 by norm_num]
            rw [show ((2:ℚ) ^ (-17:Int)) = 1 / 131072 by norm_num]
            field_simp
          rw [hsc]
          have hsle : m / ft * 131072 ≤ 13107200 + 25 / 32 := by nlinarith [hqle]
          have hfloor : ⌊m / ft * 131072⌋ ≤ 13107200 := by
            refine le_trans (Int.floor_le_floor hsle) ?_
            norm_num
          have hrne : rne (m / ft * 131072) ≤ 13107201 := by
            have hb := rne_le_floor_add_one (m / ft * 131072)
            omega
          have hrq : (rne (m / ft * 131072) : ℚ) ≤ 13107201 := by exact_mod_cast hrne
          have hz : (0:ℚ) < 2 ^ ((6:Int) - 23) := by positivity
          have hfinal : (rne (m / ft * 131072) : ℚ) * 2 ^ ((6:Int) - 23)
              ≤ 13107201 * 2 ^ ((6:Int) - 23) :=
            mul_le_mul_of_nonneg_right hrq hz.le
          refine le_trans hfinal ?_
          rw [show ((6:Int) - 23) = -17 by norm_num]
          norm_num

/-- C8 (witness): instantiation of `usage_percent_bounds_f32` at the
bound-attaining input `usedBytes = totalBytes = 10737419`. -/
theorem usage_percent_bounds_f32_witness :
    0 ≤ usedPercentF32 10737419 10737419
    ∧ usedPercentF32 10737419 10737419 ≤ 100 + 1 / 131072 :=
  usage_percent_bounds_f32 10737419 10737419 (by norm_num) (by norm_num)

/-- C9: the listing is a single terminating pass over the driver's finite
stream — one output line per entry, in order (a map), so each entry is
consumed exactly once — and it never descends into a subdirectory: entry
lines ignore a directory's contents, and the whole listing is unchanged
when every subdirectory's contents are stripped. -/
theorem single_pass_listing :
    (∀ es : List FsNode, listEntries es = es.map entryLine)
    ∧ (∀ es : List FsNode, (listEntries es).length = es.length)
    ∧ (∀ (nm : String) (children : List FsNode),
        entryLine (FsNode.dir nm children) = entryLine (FsNode.dir nm []))
    ∧ (∀ (nm : String) (children : List FsNode),
        listFiles (some (FsNode.dir nm children))
          = listFiles (some (FsNode.dir nm (children.map stripChildren)))) := by
  have hfun : entryLine ∘ stripChildren = entryLine := funext entryLine_stripChildren
  refine ⟨listEntries_map, ?_, fun nm children => rfl, ?_⟩
  · intro es
    rw [listEntries_map]
    exact es.length_map entryLine
  · intro nm children
    have hempty : (children.map stripChildren).isEmpty = children.isEmpty := by
      cases children <;> rfl
    simp only [listFiles, hempty, listEntries_map, List.map_map, hfun]

/-- C10: along every run of the loop the cycle counter stays in
`[0, 11]`; on a re-mount iteration it is reset to 0 with the increment
skipped, and on every other iteration it increases by exactly 1. -/
theorem counter_invariant (env : Nat → Bool) (t u : Nat)
    (root : Option FsNode) (n : Nat) :
    (0 ≤ (loopRun env t u root n).count ∧ (loopRun env t u root n).count ≤ 11)
    ∧ ((loopRun env t u root n).count > 10 →
        (loopRun env t u root (n + 1)).count = 0)
    ∧ ((loopRun env t u root n).count ≤ 10 →
        (loopRun env t u root (n + 1)).count
          = (loopRun env t u root n).count + 1) := by
  have hc := loopRun_count env t u root n
  have hc1 := loopRun_count env t u root (n + 1)
  refine ⟨?_, ?_, ?_⟩
  · rw [hc]
    split <;> omega
  · intro h
    rw [hc] at h
    rw [hc1]
    split at h <;> split <;> omega
  · intro h
    rw [hc] at h
    rw [hc1, hc]
    split at h <;> split <;> omega

/-- C10 (witness): instantiation of `counter_invariant` at iterations 6
(re-mount: 11 → 0) and 0 (ordinary: 5 → 6). -/
theorem counter_invariant_witness :
    (loopRun (fun _ => false) 0 0 none 7).count = 0
    ∧ (loopRun (fun _ => false) 0 0 none 1).count = 6 :=
  ⟨(counter_invariant (fun _ => false) 0 0 none 6).2.1 (by decide),
   (counter_invariant (fun _ => false) 0 0 none 0).2.2 (by decide)⟩
